import Mathlib

/-!
Verification of the `pdf` command-line utility (Rust) against its
natural-language specification.  The Rust sources are shallowly embedded:
pure functions become Lean functions on `Nat` / `List` (machine `u32`
arithmetic never overflows on the inputs the claims quantify over, so
numbers are modelled as `Nat`); fallible code returns `Except`; the
external pdfium engine and the filesystem are modelled as explicit oracles.
Strings are modelled as `List Char`; `char::is_whitespace` is modelled by
`Char.isWhitespace` (the claims only involve ASCII input).
-/

namespace PdfTool

/-- Embedding of `error.rs`: the `Error` enum.  The `Io` payload is the
rendered message of the underlying `std::io::Error`. -/
inductive Error where
  | InvalidArgs : String → Error
  | PdfInvalid : String → Error
  | PdfiumNotFound : String → Error
  | Render : String → Error
  | Io : String → Error
deriving DecidableEq, Repr

instance {ε α : Type _} [DecidableEq ε] [DecidableEq α] : DecidableEq (Except ε α) := fun x y =>
  match x, y with
  | .error a, .error b =>
    if h : a = b then .isTrue (congrArg Except.error h)
    else .isFalse (fun hc => h (Except.error.inj hc))
  | .error _, .ok _ => .isFalse (fun hc => Except.noConfusion hc)
  | .ok _, .error _ => .isFalse (fun hc => Except.noConfusion hc)
  | .ok a, .ok b =>
    if h : a = b then .isTrue (congrArg Except.ok h)
    else .isFalse (fun hc => h (Except.ok.inj hc))

/-- Embedding of `Error::exit_code` (`error.rs`), as the numeric exit value. -/
def Error.exit_code : Error → Nat
  | .InvalidArgs _ => 1
  | .PdfInvalid _ => 2
  | .PdfiumNotFound _ => 3
  | .Render _ => 4
  | .Io _ => 5

/-! ### String primitives used by `page_range.rs`

Rust `str::split(',')` yields `n+1` parts for `n` separators; on the empty
string it yields one empty part.  `split_once('-')` splits at the first
occurrence.  `trim` drops whitespace from both ends.  `u32::from_str`
accepts an optional leading `+` followed by one or more ASCII digits. -/

/-- Model of Rust `str::split(sep)`: always returns at least one part. -/
def splitOnChar (sep : Char) : List Char → List (List Char)
  | [] => [[]]
  | c :: rest =>
    match splitOnChar sep rest with
    | [] => [[]]
    | p :: ps => if c = sep then [] :: p :: ps else (c :: p) :: ps

/-- Model of Rust `str::split_once(sep)`: split at the first occurrence. -/
def splitOnce (sep : Char) : List Char → Option (List Char × List Char)
  | [] => none
  | c :: rest =>
    if c = sep then some ([], rest)
    else (splitOnce sep rest).map (fun p => (c :: p.1, p.2))

/-- Model of Rust `str::trim`: drop whitespace from both ends. -/
def trimChars (s : List Char) : List Char :=
  ((s.dropWhile Char.isWhitespace).reverse.dropWhile Char.isWhitespace).reverse

/-- Digit run accepted by `u32::from_str`: nonempty, all ASCII digits. -/
def parseDigits (s : List Char) : Option Nat :=
  if s = [] then none
  else if s.all Char.isDigit then
    some (s.foldl (fun acc c => 10 * acc + (c.toNat - 48)) 0)
  else none

/-- Model of Rust `u32::from_str` (an optional leading `+`, then digits).
Overflow is not modelled: a numeral above `u32::MAX` fails in Rust and
succeeds here, but every claim only observes success/failure of the whole
parse, and such a numeral always also exceeds `max_page`, producing the
same `InvalidArgs` outcome. -/
def parseNat (s : List Char) : Option Nat :=
  match s with
  | [] => none
  | c :: rest => if c = '+' then parseDigits rest else parseDigits (c :: rest)

/-- Decimal digits of `n`, most significant first; fuel-structured so the
kernel can evaluate it.  `natToCharsAux fuel n` is the digit string of `n`
provided `n ≤ fuel` (and `n ≠ 0`). -/
def natToCharsAux : Nat → Nat → List Char
  | 0, _ => []
  | fuel + 1, n =>
    if n = 0 then [] else natToCharsAux fuel (n / 10) ++ [Nat.digitChar (n % 10)]

/-- Model of Rust `u32::to_string` / `Display`. -/
def natToChars (n : Nat) : List Char :=
  if n = 0 then ['0'] else natToCharsAux n n

/-- `natToChars`, packaged as a `String`. -/
def natToStr (n : Nat) : String :=
  String.mk (natToChars n)

/-! ### `page_range.rs`: `parse_page_range` -/

/-- One iteration of the `parse_page_range` loop (`page_range.rs` lines
7-50): handle a single comma-separated token, yielding the pages it
contributes.  A `start..=end` range contributes `range' start (end-start+1)`. -/
def parsePart (part0 : List Char) (max_page : Nat) : Except Error (List Nat) :=
  let part := trimChars part0
  match splitOnce '-' part with
  | some (s, e) =>
    match parseNat (trimChars s) with
    | none => .error (.InvalidArgs ("invalid page number: " ++ String.mk s))
    | some start =>
      match parseNat (trimChars e) with
      | none => .error (.InvalidArgs ("invalid page number: " ++ String.mk e))
      | some stop =>
        if start = 0 ∨ stop = 0 then
          .error (.InvalidArgs "page numbers are 1-based")
        else if start > stop then
          .error (.InvalidArgs ("invalid range: " ++ natToStr start ++ " > " ++ natToStr stop))
        else if stop > max_page then
          .error (.InvalidArgs ("page " ++ natToStr stop ++ " exceeds page count " ++ natToStr max_page))
        else
          .ok (List.range' start (stop - start + 1))
  | none =>
    match parseNat part with
    | none => .error (.InvalidArgs ("invalid page number: " ++ String.mk part))
    | some page =>
      if page = 0 then
        .error (.InvalidArgs "page numbers are 1-based")
      else if page > max_page then
        .error (.InvalidArgs ("page " ++ natToStr page ++ " exceeds page count " ++ natToStr max_page))
      else
        .ok [page]

/-- The `for part in input.split(',')` loop of `parse_page_range`,
accumulating into `pages` and stopping at the first error. -/
def parseLoop (max_page : Nat) : List (List Char) → List Nat → Except Error (List Nat)
  | [], acc => .ok acc
  | p :: ps, acc =>
    match parsePart p max_page with
    | .error e => .error e
    | .ok l => parseLoop max_page ps (acc ++ l)

/-- Rust `Vec::dedup`: remove consecutive duplicates. -/
def dedupAdj : List Nat → List Nat
  | [] => []
  | [a] => [a]
  | a :: b :: rest => if a = b then dedupAdj (b :: rest) else a :: dedupAdj (b :: rest)

/-- Embedding of `parse_page_range` (`page_range.rs` lines 4-55).
`sort_unstable` on `Nat` is extensionally any correct sort (equal keys are
identical), modelled by `insertionSort`; `dedup` removes consecutive
duplicates. -/
def parse_page_range (input : List Char) (max_page : Nat) : Except Error (List Nat) :=
  match parseLoop max_page (splitOnChar ',' input) [] with
  | .error e => .error e
  | .ok pages => .ok (dedupAdj (List.insertionSort (· ≤ ·) pages))

/-! ### `page_range.rs`: `divide_pages` -/

/-- The `for i in 0..workers` loop of `divide_pages`: `k` iterations remain,
`i` is the current index, `start` the next chunk's first page. -/
def divideLoop (base rem : Nat) : Nat → Nat → Nat → List (Nat × Nat)
  | 0, _, _ => []
  | k + 1, i, start =>
    let chunk := base + if i < rem then 1 else 0
    let e := start + chunk - 1
    (start, e) :: divideLoop base rem k (i + 1) (e + 1)

/-- Embedding of `divide_pages` (`page_range.rs` lines 58-78). -/
def divide_pages (total_pages num_workers : Nat) : List (Nat × Nat) :=
  if total_pages = 0 ∨ num_workers = 0 then []
  else
    let workers := min num_workers total_pages
    divideLoop (total_pages / workers) (total_pages % workers) workers 0 1

/-! ### `render.rs`: `format_page_list` (range compression) -/

/-- Embedding of `push_range` (`render.rs` lines 198-204). -/
def push_range (parts : List (List Char)) (s e : Nat) : List (List Char) :=
  parts ++ [if s = e then natToChars s else natToChars s ++ '-' :: natToChars e]

/-- The `for &page in &pages[1..]` loop of `format_page_list`, carrying
`parts`, `range_start` and `range_end`. -/
def formatLoop (parts : List (List Char)) (range_start range_end : Nat) :
    List Nat → List (List Char)
  | [] => push_range parts range_start range_end
  | page :: rest =>
    if page = range_end + 1 then formatLoop parts range_start page rest
    else formatLoop (push_range parts range_start range_end) page page rest

/-- Rust `Vec::join(",")` on the parts. -/
def joinComma : List (List Char) → List Char
  | [] => []
  | [p] => p
  | p :: ps => p ++ ',' :: joinComma ps

/-- Embedding of `format_page_list` (`render.rs` lines 175-196). -/
def format_page_list (pages : List Nat) : List Char :=
  match pages with
  | [] => []
  | p :: rest => joinComma (formatLoop [] p p rest)

/-! ### `render_worker.rs`: worker render engine

The pdfium engine is a black box (spec §1): a document is its observable
page list; fetching page `i` is `doc[i]?`; rasterize-plus-encode for a page
is an oracle `Env.render` (a function of the whole page state, so
boundary-box overrides influence it); `std::fs::write` is an oracle
`Env.fsWrite` returning `none` on success or an error message. -/

/-- `BoxType` from `render_worker.rs`. -/
inductive BoxType where
  | Crop
  | Bleed
deriving DecidableEq, Repr

/-- `JpegEncoderType` from `render_worker.rs`. -/
inductive JpegEncoderType where
  | Image
  | Vips
deriving DecidableEq, Repr

/-- A page boundary rectangle (contents opaque to the claims). -/
structure Rect where
  left : Int
  bottom : Int
  right : Int
  top : Int
deriving DecidableEq, Repr

/-- A PDF image object: its filter-name chain and the result of
`get_raw_image_data` (raw encoded bytes, or the engine's error). -/
structure PdfImageObject where
  filters : List String
  raw_data : Except String (List Nat)
deriving DecidableEq, Repr

/-- A drawable page object; `asImage` models `as_image_object()`. -/
structure PdfObject where
  asImage : Option PdfImageObject
deriving DecidableEq, Repr

/-- Observable state of one PDF page. -/
structure PdfPage where
  objects : List PdfObject
  cropBox : Rect
  bleedBox : Option Rect
deriving DecidableEq, Repr

/-- A loaded document: its pages, indexed from 0. -/
abbrev PdfDocument := List PdfPage

/-- External-effect oracles: the raster+encode pipeline (of
`render_page_to_jpeg`, which consumes `target_width`/`quality`/`encoder`)
and the filesystem write. -/
structure Env where
  render : PdfPage → Except String (List Nat)
  fsWrite : String → List Nat → Option String

/-- `RenderOptions` from `render_worker.rs`.  `target_width`, `quality`
and `encoder` are consumed by the black-box `Env.render` pipeline. -/
structure RenderOptions where
  target_width : Nat
  quality : Nat
  box_type : BoxType
  extract_images : Bool
  encoder : JpegEncoderType

/-- `WorkerResult` from `render_worker.rs` (lines 25-30). -/
structure WorkerResult where
  pages_rendered : Nat
  pages_extracted : Nat
  errors : List String
deriving DecidableEq, Repr

/-- Loop state of `render_pages`: the (mutable) document plus the counters,
error list, and the files written so far (name, bytes). -/
structure WorkerState where
  doc : PdfDocument
  pages_rendered : Nat
  pages_extracted : Nat
  errors : List String
  files : List (String × List Nat)
deriving DecidableEq, Repr

/-- `format!("page-{page_num:04}.jpg")`. -/
def pageFilename (page_num : Nat) : String :=
  let ds := natToChars page_num
  String.mk ('p' :: 'a' :: 'g' :: 'e' :: '-' :: (List.replicate (4 - ds.length) '0' ++ ds)) ++ ".jpg"

/-- Embedding of `apply_bleed_box` (`render_worker.rs` lines 119-133):
fetch the page (silently return on failure), read its bleed box (silently
return when absent), overwrite that page's crop box with it. -/
def apply_bleed_box (doc : PdfDocument) (page_index : Nat) : PdfDocument :=
  match doc[page_index]? with
  | none => doc
  | some page =>
    match page.bleedBox with
    | none => doc
    | some b => doc.set page_index { page with cropBox := b }

/-- Embedding of `is_jpeg_encoded` (`render_worker.rs` lines 161-167). -/
def is_jpeg_encoded (image_obj : PdfImageObject) : Bool :=
  if image_obj.filters.length ≠ 1 then false
  else
    match image_obj.filters[0]? with
    | some f => f = "DCTDecode"
    | none => false

/-- Embedding of `write_raw_jpeg` (`render_worker.rs` lines 169-185); on
success returns the write event (filename, exact raw bytes). -/
def write_raw_jpeg (env : Env) (image_obj : PdfImageObject) (page_num : Nat) :
    Except String (String × List Nat) :=
  match image_obj.raw_data with
  | .error e => .error ("extract image data: " ++ e)
  | .ok data =>
    if data = [] then .error "empty image data"
    else
      match env.fsWrite (pageFilename page_num) data with
      | some e => .error e
      | none => .ok (pageFilename page_num, data)

/-- Embedding of `try_extract_jpeg` (`render_worker.rs` lines 140-159). -/
def try_extract_jpeg (env : Env) (page : PdfPage) (page_num : Nat) :
    Option (Except String (String × List Nat)) :=
  if page.objects.length ≠ 1 then none
  else
    match page.objects[0]? with
    | none => none
    | some obj =>
      match obj.asImage with
      | none => none
      | some image_obj =>
        if is_jpeg_encoded image_obj then some (write_raw_jpeg env image_obj page_num)
        else none

/-- The full-render fallback (`render_page_to_jpeg` call site,
`render_worker.rs` lines 98-106): rasterize+encode via the oracle, then
record the write or the error. -/
def renderStep (env : Env) (st : WorkerState) (page : PdfPage) (page_num : Nat) : WorkerState :=
  match env.render page with
  | .ok bytes =>
    { st with pages_rendered := st.pages_rendered + 1
              files := st.files ++ [(pageFilename page_num, bytes)] }
  | .error e =>
    { st with errors := st.errors ++ ["page " ++ natToStr page_num ++ ": " ++ e] }

/-- The bleed-box step at the top of the page loop (`render_worker.rs`
lines 69-71). -/
def boxAdjust (opts : RenderOptions) (st : WorkerState) (page_num : Nat) : WorkerState :=
  if opts.box_type = BoxType.Bleed then
    { st with doc := apply_bleed_box st.doc (page_num - 1) }
  else st

/-- One iteration of the `for &page_num in pages` loop of `render_pages`
(`render_worker.rs` lines 65-107). -/
def processPage (env : Env) (opts : RenderOptions) (st : WorkerState) (page_num : Nat) :
    WorkerState :=
  let st := boxAdjust opts st page_num
  match st.doc[page_num - 1]? with
  | none =>
    { st with errors := st.errors ++ ["page " ++ natToStr page_num ++ ": page index out of bounds"] }
  | some page =>
    if opts.extract_images then
      match try_extract_jpeg env page page_num with
      | some (.ok (fn, data)) =>
        { st with pages_extracted := st.pages_extracted + 1
                  files := st.files ++ [(fn, data)] }
      | some (.error e) =>
        { st with errors := st.errors ++ ["page " ++ natToStr page_num ++ " extract: " ++ e] }
      | none => renderStep env st page page_num
    else renderStep env st page page_num

/-- Embedding of `render_pages` (`render_worker.rs` lines 46-117): fold the
page loop over the initial state (document opened once per invocation). -/
def render_pages (env : Env) (doc : PdfDocument) (pages : List Nat) (opts : RenderOptions) :
    WorkerState :=
  pages.foldl (processPage env opts)
    { doc := doc, pages_rendered := 0, pages_extracted := 0, errors := [], files := [] }

/-- The `WorkerResult` a `render_pages` invocation returns. -/
def worker_result (st : WorkerState) : WorkerResult :=
  { pages_rendered := st.pages_rendered
    pages_extracted := st.pages_extracted
    errors := st.errors }

/-! ### `render.rs`: orchestrator -/

/-- `WorkerOutput` from `render.rs` (lines 217-222): the struct the
orchestrator deserializes a worker's standard output into.  It has only a
`pages_rendered` field and a defaulted `errors` field. -/
structure WorkerOutput where
  pages_rendered : Nat
  errors : List String
deriving DecidableEq, Repr

/-- Observable outcome of one spawned child process: whether its exit
status was success, the rendered status text, captured standard error, and
what it printed on standard output — either one well-formed JSON
`WorkerResult`, or `none` for garbage/empty output. -/
structure ChildOutcome where
  success : Bool
  statusStr : String
  stderr : String
  stdout : Option WorkerResult

/-- Model of `serde_json::from_str::<WorkerOutput>` applied to a child's
standard output: a well-formed `WorkerResult` JSON deserializes, with the
unknown `pages_extracted` field ignored (serde's default); garbage fails. -/
def workerOutputOfStdout : Option WorkerResult → Option WorkerOutput
  | none => none
  | some r => some { pages_rendered := r.pages_rendered, errors := r.errors }

/-- The message `format!("worker {i}: exit {status}: {stderr}")`. -/
def workerExitMsg (i : Nat) (c : ChildOutcome) : String :=
  "worker " ++ natToStr i ++ ": exit " ++ c.statusStr ++ ": " ++ c.stderr

/-- The `for (i, child) in children.into_iter().enumerate()` loop of
`collect_worker_results` (`render.rs` lines 115-127). -/
def collectLoop : List ChildOutcome → Nat → Nat → List String → Nat × List String
  | [], _, total, errs => (total, errs)
  | c :: rest, i, total, errs =>
    let errs := if c.success then errs else errs ++ [workerExitMsg i c]
    match workerOutputOfStdout c.stdout with
    | some r => collectLoop rest (i + 1) (total + r.pages_rendered) (errs ++ r.errors)
    | none => collectLoop rest (i + 1) total errs

/-- Embedding of `collect_worker_results` (`render.rs` lines 111-130). -/
def collect_worker_results (children : List ChildOutcome) : Nat × List String :=
  collectLoop children 0 0 []

/-- Embedding of `check_errors` (`render.rs` lines 132-140). -/
def check_errors (errors : List String) : Except Error Unit :=
  if errors = [] then .ok ()
  else .error (.Render (natToStr errors.length ++ " errors during rendering"))

/-- The `--box` value string built in `spawn_worker` (`render.rs` 151-154). -/
def boxStr : BoxType → String
  | .Crop => "crop"
  | .Bleed => "bleed"

/-- Embedding of the subprocess argument list built by `spawn_worker`
(`render.rs` lines 142-173): the exact arguments, in order, the
orchestrator passes to one worker process. -/
def spawn_worker_args (pdf_path output_dir pages : String) (target_width quality : Nat)
    (box_type : BoxType) : List String :=
  ["render-worker", pdf_path,
   "-o", output_dir,
   "--pages", pages,
   "--target-width", natToStr target_width,
   "--quality", natToStr quality,
   "--box", boxStr box_type]

/-- The slice `&plan.page_list[(start-1)..=(end-1)]` (`render.rs` 102). -/
def workerSlice (page_list : List Nat) (s e : Nat) : List Nat :=
  (page_list.drop (s - 1)).take (e - s + 1)

/-- Pure projection of `run_multi_process` (`render.rs` lines 88-109): the
argument lists of the worker processes it spawns, one per chunk. -/
def run_multi_process_args (pdf_path output_dir : String) (page_list : List Nat)
    (effective_workers target_width quality : Nat) (box_type : BoxType) : List (List String) :=
  (divide_pages page_list.length effective_workers).map
    (fun r =>
      spawn_worker_args pdf_path output_dir
        (String.mk (format_page_list (workerSlice page_list r.1 r.2)))
        target_width quality box_type)

/-! ### `info.rs` -/

/-- `PageInfo` from `info.rs`; dimensions are opaque point values. -/
structure PageInfo where
  page : Nat
  width_pt : Int
  height_pt : Int
deriving DecidableEq, Repr

/-- `PdfInfo` from `info.rs`. -/
structure PdfInfo where
  page_count : Nat
  pages : List PageInfo
deriving DecidableEq, Repr

/-- Embedding of `info::run` (`info.rs` lines 19-55), for an
already-opened document given as its page dimension list; the printed JSON
value is returned as the success payload. -/
def info_run (doc : List (Int × Int)) (all_pages : Bool) : Except Error PdfInfo :=
  let page_count := doc.length
  if all_pages then
    .ok { page_count := page_count
          pages := (List.range doc.length).zipWith
            (fun i d => { page := i + 1, width_pt := d.1, height_pt := d.2 }) doc }
  else
    match doc[0]? with
    | none => .error (.PdfInvalid "PDF has no pages")
    | some first =>
      .ok { page_count := page_count
            pages := [{ page := 1, width_pt := first.1, height_pt := first.2 }] }

/-! ## Lemmas about `divide_pages` -/

/-- Number of pages in a chunk `(start, end)`. -/
def chunkSize (p : Nat × Nat) : Nat := p.2 + 1 - p.1

/-- The page numbers a chunk `(start, end)` covers: `start..=end`. -/
def chunkRange (p : Nat × Nat) : List Nat := List.range' p.1 (p.2 + 1 - p.1)

theorem divideLoop_length (base rem : Nat) :
    ∀ k i start, (divideLoop base rem k i start).length = k := by
  intro k
  induction k with
  | zero => intro i start; rfl
  | succ k ih => intro i start; simp [divideLoop, ih]

theorem divideLoop_sizes (base rem : Nat) (hb : 1 ≤ base) :
    ∀ k i start, (divideLoop base rem k i start).map chunkSize =
      (List.range k).map (fun j => base + if i + j < rem then 1 else 0) := by
  intro k
  induction k with
  | zero => intro i start; rfl
  | succ k ih =>
    intro i start
    rw [List.range_succ_eq_map]
    simp only [divideLoop, List.map_cons, List.map_map]
    refine List.cons_eq_cons.mpr ⟨?_, ?_⟩
    · simp only [chunkSize]
      by_cases h : i < rem <;> simp [h] <;> omega
    · rw [ih (i + 1)]
      apply List.map_congr_left
      intro j _
      simp only [Function.comp]
      have h : i + (j + 1) = i + 1 + j := by omega
      rw [h]

theorem divideLoop_flatten (base rem : Nat) (hb : 1 ≤ base) :
    ∀ k i start, ((divideLoop base rem k i start).map chunkRange).flatten =
      List.range' start (k * base + (min rem (i + k) - min rem i)) := by
  intro k
  induction k with
  | zero =>
    intro i start
    simp [divideLoop]
  | succ k ih =>
    intro i start
    simp only [divideLoop, List.map_cons, List.flatten_cons]
    rw [ih (i + 1)]
    have hsz : chunkRange (start, start + (base + if i < rem then 1 else 0) - 1) =
        List.range' start (base + if i < rem then 1 else 0) := by
      simp only [chunkRange]
      congr 1
      by_cases h : i < rem <;> simp [h] <;> omega
    rw [hsz]
    have harg : start + (base + if i < rem then 1 else 0) - 1 + 1 =
        start + 1 * (base + if i < rem then 1 else 0) := by
      by_cases h : i < rem <;> simp [h] <;> omega
    rw [harg, List.range'_append]
    congr 1
    rw [Nat.succ_mul]
    by_cases h : i < rem <;> simp only [h, if_true, if_false] <;> omega

theorem divide_pages_sizes (total workers : Nat) (ht : 0 < total) (hw : 0 < workers) :
    (divide_pages total workers).map chunkSize =
      (List.range (min workers total)).map
        (fun j => total / min workers total + if j < total % min workers total then 1 else 0) := by
  have heff : ¬(total = 0 ∨ workers = 0) := by omega
  have hbase : 1 ≤ total / min workers total := by
    have h1 : 0 < min workers total := by omega
    exact (Nat.one_le_div_iff h1).mpr (Nat.min_le_right _ _)
  simp only [divide_pages, heff, if_false]
  rw [divideLoop_sizes _ _ hbase]
  simp

theorem divide_pages_flatten (total workers : Nat) (ht : 0 < total) (hw : 0 < workers) :
    ((divide_pages total workers).map chunkRange).flatten = List.range' 1 total := by
  have heff : ¬(total = 0 ∨ workers = 0) := by omega
  have h1 : 0 < min workers total := by omega
  have hbase : 1 ≤ total / min workers total :=
    (Nat.one_le_div_iff h1).mpr (Nat.min_le_right _ _)
  simp only [divide_pages, heff, if_false]
  rw [divideLoop_flatten _ _ hbase]
  congr 1
  have hrem : total % min workers total < min workers total := Nat.mod_lt _ h1
  have hdm := Nat.div_add_mod total (min workers total)
  omega

/-! ## Lemmas about decimal rendering and parsing -/

theorem digitChar_spec {d : Nat} (hd : d < 10) :
    (Nat.digitChar d).isDigit = true ∧ (Nat.digitChar d).toNat - 48 = d := by
  interval_cases d <;> exact ⟨by decide, by decide⟩

theorem natToCharsAux_mem {fuel : Nat} :
    ∀ {n : Nat}, ∀ c ∈ natToCharsAux fuel n, ∃ d, d < 10 ∧ c = Nat.digitChar d := by
  induction fuel with
  | zero => intro n c hc; simp [natToCharsAux] at hc
  | succ fuel ih =>
    intro n c hc
    by_cases h : n = 0
    · simp [natToCharsAux, h] at hc
    · simp only [natToCharsAux, h, if_false, List.mem_append, List.mem_singleton] at hc
      rcases hc with hc | hc
      · exact ih _ hc
      · exact ⟨n % 10, Nat.mod_lt _ (by omega), hc⟩

theorem natToChars_mem {n : Nat} :
    ∀ c ∈ natToChars n, ∃ d, d < 10 ∧ c = Nat.digitChar d := by
  intro c hc
  by_cases h : n = 0
  · simp [natToChars, h] at hc
    exact ⟨0, by omega, by rw [hc]; rfl⟩
  · simp only [natToChars, h, if_false] at hc
    exact natToCharsAux_mem _ hc

theorem natToChars_isDigit {n : Nat} : ∀ c ∈ natToChars n, c.isDigit = true := by
  intro c hc
  rcases natToChars_mem c hc with ⟨d, hd, rfl⟩
  exact (digitChar_spec hd).1

theorem isDigit_facts {c : Char} (h : c.isDigit = true) :
    c ≠ '+' ∧ c ≠ '-' ∧ c ≠ ',' ∧ c.isWhitespace = false := by
  simp only [Char.isDigit] at h
  rcases (Bool.and_eq_true _ _).mp h with ⟨h1, h2⟩
  rw [decide_eq_true_eq] at h1 h2
  refine ⟨?_, ?_, ?_, ?_⟩
  · rintro rfl; revert h1; decide
  · rintro rfl; revert h1; decide
  · rintro rfl; revert h1; decide
  · simp only [Char.isWhitespace, Bool.or_eq_false_iff, decide_eq_false_iff_not]
    refine ⟨⟨⟨?_, ?_⟩, ?_⟩, ?_⟩ <;> (rintro rfl; revert h1; decide)

theorem natToCharsAux_ne_nil {fuel n : Nat} (h0 : n ≠ 0) (hf : fuel ≠ 0) :
    natToCharsAux fuel n ≠ [] := by
  cases fuel with
  | zero => exact absurd rfl hf
  | succ fuel => simp [natToCharsAux, h0]

theorem natToChars_ne_nil {n : Nat} : natToChars n ≠ [] := by
  by_cases h : n = 0
  · simp [natToChars, h]
  · simp only [natToChars, h, if_false]
    exact natToCharsAux_ne_nil h h

theorem natToCharsAux_foldl {fuel : Nat} :
    ∀ {n : Nat} (acc : Nat), n ≤ fuel →
      (natToCharsAux fuel n).foldl (fun acc c => 10 * acc + (c.toNat - 48)) acc =
        acc * 10 ^ (natToCharsAux fuel n).length + n := by
  induction fuel with
  | zero => intro n acc hn; interval_cases n; simp [natToCharsAux]
  | succ fuel ih =>
    intro n acc hn
    by_cases h : n = 0
    · simp [natToCharsAux, h]
    · simp only [natToCharsAux, h, if_false, List.foldl_append, List.foldl_cons,
        List.foldl_nil, List.length_append, List.length_singleton]

      rw [ih acc (by omega)]
      have hmod : (Nat.digitChar (n % 10)).toNat - 48 = n % 10 :=
        (digitChar_spec (Nat.mod_lt _ (by omega))).2
      rw [hmod, pow_succ]
      have := Nat.div_add_mod n 10
      ring_nf
      omega

theorem parseDigits_natToChars (n : Nat) : parseDigits (natToChars n) = some n := by
  by_cases h : n = 0
  · subst h; decide
  · have hne : natToChars n ≠ [] := natToChars_ne_nil
    have hall : (natToChars n).all Char.isDigit = true :=
      List.all_eq_true.mpr (fun c hc => natToChars_isDigit c hc)
    simp only [parseDigits, hne, if_false, hall, if_true, Option.some.injEq]
    simp only [natToChars, h, if_false]
    rw [natToCharsAux_foldl 0 (le_refl n)]
    simp

theorem parseNat_natToChars (n : Nat) : parseNat (natToChars n) = some n := by
  rcases hc : natToChars n with _ | ⟨c, cs⟩
  · exact absurd hc natToChars_ne_nil
  · have hcd : c.isDigit = true := by
      apply natToChars_isDigit
      rw [hc]; exact List.mem_cons_self _ _
    have hcp : c ≠ '+' := (isDigit_facts hcd).1
    simp only [parseNat, hcp, if_false]
    rw [← hc]
    exact parseDigits_natToChars n

/-! ## Lemmas about the string primitives -/

theorem splitOnce_eq_none {sep : Char} :
    ∀ {l : List Char}, sep ∉ l → splitOnce sep l = none := by
  intro l
  induction l with
  | nil => intro _; rfl
  | cons c rest ih =>
    intro h
    have hc : ¬c = sep := fun hcs => h (hcs ▸ List.mem_cons_self _ _)
    simp only [splitOnce, hc, if_false]
    rw [ih (fun hm => h (List.mem_cons_of_mem _ hm))]
    rfl

theorem splitOnce_append {sep : Char} :
    ∀ {l₁ : List Char} (l₂ : List Char), sep ∉ l₁ →
      splitOnce sep (l₁ ++ sep :: l₂) = some (l₁, l₂) := by
  intro l₁
  induction l₁ with
  | nil => intro l₂ _; simp [splitOnce]
  | cons c rest ih =>
    intro l₂ h
    have hc : ¬c = sep := fun hcs => h (hcs ▸ List.mem_cons_self _ _)
    have hstep : (c :: rest) ++ sep :: l₂ = c :: (rest ++ sep :: l₂) := rfl
    rw [hstep]
    simp only [splitOnce, hc, if_false]
    rw [ih l₂ (fun hm => h (List.mem_cons_of_mem _ hm))]
    rfl

theorem splitOnChar_ne_nil {sep : Char} : ∀ {l : List Char}, splitOnChar sep l ≠ [] := by
  intro l
  cases l with
  | nil => simp [splitOnChar]
  | cons c rest =>
    simp only [splitOnChar]
    rcases h : splitOnChar sep rest with _ | ⟨p, ps⟩
    · simp
    · by_cases hc : c = sep <;> simp [hc]

theorem splitOnChar_of_not_mem {sep : Char} :
    ∀ {l : List Char}, sep ∉ l → splitOnChar sep l = [l] := by
  intro l
  induction l with
  | nil => intro _; rfl
  | cons c rest ih =>
    intro h
    have hc : ¬c = sep := fun hcs => h (hcs ▸ List.mem_cons_self _ _)
    simp only [splitOnChar]
    rw [ih (fun hm => h (List.mem_cons_of_mem _ hm))]
    simp [hc]

theorem splitOnChar_append {sep : Char} :
    ∀ {p : List Char} (rest : List Char), sep ∉ p →
      splitOnChar sep (p ++ sep :: rest) = p :: splitOnChar sep rest := by
  intro p
  induction p with
  | nil =>
    intro rest _
    show splitOnChar sep (sep :: rest) = [] :: splitOnChar sep rest
    simp only [splitOnChar]
    rcases h : splitOnChar sep rest with _ | ⟨q, qs⟩
    · exact absurd h splitOnChar_ne_nil
    · simp
  | cons c cp ih =>
    intro rest h
    have hc : ¬c = sep := fun hcs => h (hcs ▸ List.mem_cons_self _ _)
    have hstep : (c :: cp) ++ sep :: rest = c :: (cp ++ sep :: rest) := rfl
    rw [hstep]
    simp only [splitOnChar]
    rw [ih rest (fun hm => h (List.mem_cons_of_mem _ hm))]
    simp [hc]

theorem dropWhile_eq_self_of {p : Char → Bool} :
    ∀ {l : List Char}, (∀ c ∈ l, p c = false) → l.dropWhile p = l := by
  intro l h
  cases l with
  | nil => rfl
  | cons c rest =>
    rw [List.dropWhile_cons, h c (List.mem_cons_self _ _)]
    simp

theorem trimChars_eq_self {l : List Char} (h : ∀ c ∈ l, c.isWhitespace = false) :
    trimChars l = l := by
  unfold trimChars
  rw [dropWhile_eq_self_of h]
  rw [dropWhile_eq_self_of (fun c hc => h c (List.mem_reverse.mp hc))]
  exact List.reverse_reverse l

/-! ## Lemmas about sorting and `dedupAdj` -/

theorem mem_dedupAdj : ∀ {l : List Nat} {x : Nat}, x ∈ dedupAdj l ↔ x ∈ l
  | [], x => Iff.rfl
  | [a], x => Iff.rfl
  | a :: b :: rest, x => by
    by_cases h : a = b
    · simp only [dedupAdj, h, if_true]
      rw [mem_dedupAdj (l := b :: rest)]
      subst h
      simp [List.mem_cons]
    · simp only [dedupAdj, h, if_false, List.mem_cons]
      rw [mem_dedupAdj (l := b :: rest)]
      simp [List.mem_cons]

theorem sorted_lt_dedupAdj :
    ∀ {l : List Nat}, l.Sorted (· ≤ ·) → (dedupAdj l).Sorted (· < ·)
  | [], _ => by simp [dedupAdj]
  | [a], _ => by simp [dedupAdj]
  | a :: b :: rest, h => by
    have htl : (b :: rest).Sorted (· ≤ ·) := (List.sorted_cons.mp h).2
    by_cases hab : a = b
    · simpa [dedupAdj, hab] using sorted_lt_dedupAdj htl
    · have hale : ∀ y ∈ b :: rest, a ≤ y := (List.sorted_cons.mp h).1
      simp only [dedupAdj, hab, if_false]
      rw [List.sorted_cons]
      refine ⟨?_, sorted_lt_dedupAdj htl⟩
      intro y hy
      have hyb : y ∈ b :: rest := mem_dedupAdj.mp hy
      rcases List.mem_cons.mp hyb with rfl | hyr
      · exact lt_of_le_of_ne (hale _ (List.mem_cons_self _ _)) hab
      · have hby : b ≤ y := (List.sorted_cons.mp htl).1 _ hyr
        have hab' : a < b :=
          lt_of_le_of_ne (hale _ (List.mem_cons_self _ _)) hab
        omega

theorem dedupAdj_eq_self :
    ∀ {l : List Nat}, l.Sorted (· < ·) → dedupAdj l = l
  | [], _ => rfl
  | [a], _ => rfl
  | a :: b :: rest, h => by
    have hab : a < b := (List.sorted_cons.mp h).1 _ (List.mem_cons_self _ _)
    have hne : ¬a = b := Nat.ne_of_lt hab
    simp only [dedupAdj, hne, if_false]
    rw [dedupAdj_eq_self (List.sorted_cons.mp h).2]

/-! ## Lemmas about `parsePart` and `parseLoop` -/

theorem parsePart_bounds {p : List Char} {max_page : Nat} {l : List Nat}
    (h : parsePart p max_page = .ok l) : ∀ x ∈ l, 1 ≤ x ∧ x ≤ max_page := by
  simp only [parsePart] at h
  split at h
  · split at h
    · exact Except.noConfusion h
    · split at h
      · exact Except.noConfusion h
      · split at h
        · exact Except.noConfusion h
        · split at h
          · exact Except.noConfusion h
          · split at h
            · exact Except.noConfusion h
            · rename_i start _ stop _ hz hgt hmx
              injection h with h'
              subst h'
              intro x hx
              rcases List.mem_range'.mp hx with ⟨i, hi, rfl⟩
              simp only [not_or] at hz
              omega
  · split at h
    · exact Except.noConfusion h
    · split at h
      · exact Except.noConfusion h
      · split at h
        · exact Except.noConfusion h
        · rename_i page _ hz hmx
          injection h with h'
          subst h'
          intro x hx
          rcases List.mem_singleton.mp hx with rfl
          omega

theorem parsePart_ok_ne_nil {p : List Char} {max_page : Nat} {l : List Nat}
    (h : parsePart p max_page = .ok l) : l ≠ [] := by
  simp only [parsePart] at h
  split at h
  · split at h
    · exact Except.noConfusion h
    · split at h
      · exact Except.noConfusion h
      · split at h
        · exact Except.noConfusion h
        · split at h
          · exact Except.noConfusion h
          · split at h
            · exact Except.noConfusion h
            · injection h with h'
              subst h'
              intro hnil
              have := congrArg List.length hnil
              simp [List.length_range'] at this
  · split at h
    · exact Except.noConfusion h
    · split at h
      · exact Except.noConfusion h
      · split at h
        · exact Except.noConfusion h
        · injection h with h'
          subst h'
          simp

theorem parseLoop_shift (max_page : Nat) :
    ∀ (ps : List (List Char)) (acc : List Nat),
      parseLoop max_page ps acc = (parseLoop max_page ps []).map (fun l => acc ++ l) := by
  intro ps
  induction ps with
  | nil => intro acc; simp [parseLoop, Except.map]
  | cons p ps ih =>
    intro acc
    simp only [parseLoop]
    rcases hp : parsePart p max_page with e | l
    · rfl
    · dsimp only
      rw [ih (acc ++ l), ih ([] ++ l)]
      cases parseLoop max_page ps [] <;> simp [Except.map]

theorem parseLoop_ok_mem (max_page : Nat) :
    ∀ (ps : List (List Char)) (acc l : List Nat),
      parseLoop max_page ps acc = .ok l →
      ∀ x ∈ l, x ∈ acc ∨ ∃ p ∈ ps, ∃ lp, parsePart p max_page = .ok lp ∧ x ∈ lp := by
  intro ps
  induction ps with
  | nil =>
    intro acc l h x hx
    injection h with h'
    subst h'
    exact Or.inl hx
  | cons p ps ih =>
    intro acc l h x hx
    simp only [parseLoop] at h
    rcases hp : parsePart p max_page with e | lp <;> rw [hp] at h
    · exact Except.noConfusion h
    · rcases ih (acc ++ lp) l h x hx with hmem | ⟨q, hq, lq, hok, hxl⟩
      · rcases List.mem_append.mp hmem with hacc | hlp
        · exact Or.inl hacc
        · exact Or.inr ⟨p, List.mem_cons_self _ _, lp, hp, hlp⟩
      · exact Or.inr ⟨q, List.mem_cons_of_mem _ hq, lq, hok, hxl⟩

theorem parse_page_range_ok_props {input : List Char} {max_page : Nat} {l : List Nat}
    (h : parse_page_range input max_page = .ok l) :
    l.Sorted (· < ·) ∧ (∀ x ∈ l, 1 ≤ x ∧ x ≤ max_page) := by
  simp only [parse_page_range] at h
  split at h
  · exact Except.noConfusion h
  · rename_i pages hloop
    injection h with h'
    subst h'
    refine ⟨sorted_lt_dedupAdj (List.sorted_insertionSort _ _), ?_⟩
    intro x hx
    have hx1 : x ∈ List.insertionSort (· ≤ ·) pages := mem_dedupAdj.mp hx
    have hx2 : x ∈ pages := (List.perm_insertionSort _ _).mem_iff.mp hx1
    rcases parseLoop_ok_mem max_page _ _ _ hloop x hx2 with hacc | ⟨p, _, lp, hok, hxl⟩
    · simp at hacc
    · exact parsePart_bounds hok x hxl

/-! ## Claim C1 -/

/-- **C1.** For every `total > 0` and `workers > 0`, `divide_pages` uses
`min workers total` effective workers, gives the first `total % eff` chunks
size `base+1` and the rest size `base` (`base = total / eff`), so any two
chunk sizes differ by at most 1 (each is `base` or `base+1`), sizes are
non-increasing across chunk index, and the chunks cover `1..=total`
exactly with no gaps or overlaps (their ranges concatenate to
`[1, ..., total]`); for `total = 0` or `workers = 0` the result is empty;
and the three concrete examples from the spec hold. -/
theorem C1_divide_pages_balanced_partition :
    (∀ total workers : Nat, 0 < total → 0 < workers →
      (divide_pages total workers).length = min workers total ∧
      (divide_pages total workers).map chunkSize =
        (List.range (min workers total)).map
          (fun j => total / min workers total +
            if j < total % min workers total then 1 else 0) ∧
      (∀ s ∈ (divide_pages total workers).map chunkSize,
        s = total / min workers total ∨ s = total / min workers total + 1) ∧
      ((divide_pages total workers).map chunkSize).Pairwise (· ≥ ·) ∧
      ((divide_pages total workers).map chunkRange).flatten = List.range' 1 total) ∧
    (∀ w, divide_pages 0 w = []) ∧
    (∀ t, divide_pages t 0 = []) ∧
    divide_pages 12 4 = [(1, 3), (4, 6), (7, 9), (10, 12)] ∧
    divide_pages 10 3 = [(1, 4), (5, 7), (8, 10)] ∧
    divide_pages 2 5 = [(1, 1), (2, 2)] := by
  refine ⟨?_, ?_, ?_, by decide, by decide, by decide⟩
  · intro total workers ht hw
    have heff : ¬(total = 0 ∨ workers = 0) := by omega
    have hsz := divide_pages_sizes total workers ht hw
    refine ⟨?_, hsz, ?_, ?_, divide_pages_flatten total workers ht hw⟩
    · simp only [divide_pages, heff, if_false]
      exact divideLoop_length _ _ _ _ _
    · intro s hs
      rw [hsz] at hs
      rcases List.mem_map.mp hs with ⟨j, _, hj⟩
      by_cases h : j < total % min workers total
      · right; simp [h] at hj; omega
      · left; simp [h] at hj; omega
    · rw [hsz, List.pairwise_map]
      refine (List.pairwise_lt_range _).imp ?_
      intro a b hab
      split_ifs <;> omega
  · intro w; simp [divide_pages]
  · intro t; simp [divide_pages]

/-- Witness for C1 at `total = 10`, `workers = 3`. -/
theorem C1_divide_pages_balanced_partition_witness :
    (0 < 10 ∧ 0 < 3) ∧
    ((divide_pages 10 3).map chunkRange).flatten = List.range' 1 10 :=
  ⟨⟨by decide, by decide⟩,
    (C1_divide_pages_balanced_partition.1 10 3 (by decide) (by decide)).2.2.2.2⟩

/-! ## Lemmas about `format_page_list` and the round trip -/

/-- The single part `push_range` appends for the run `s..=e`. -/
def renderRun (s e : Nat) : List Char :=
  if s = e then natToChars s else natToChars s ++ '-' :: natToChars e

theorem push_range_eq (parts : List (List Char)) (s e : Nat) :
    push_range parts s e = parts ++ [renderRun s e] := rfl

theorem renderRun_mem {s e : Nat} :
    ∀ c ∈ renderRun s e, c.isDigit = true ∨ c = '-' := by
  intro c hc
  by_cases h : s = e
  · simp only [renderRun, h, if_true] at hc
    exact Or.inl (natToChars_isDigit c hc)
  · simp only [renderRun, h, if_false, List.mem_append, List.mem_cons] at hc
    rcases hc with hc | hc | hc
    · exact Or.inl (natToChars_isDigit c hc)
    · exact Or.inr hc
    · exact Or.inl (natToChars_isDigit c hc)

theorem renderRun_no_comma {s e : Nat} : (',' : Char) ∉ renderRun s e := by
  intro hc
  rcases renderRun_mem _ hc with hd | hdash
  · exact (isDigit_facts hd).2.2.1 rfl
  · exact absurd hdash (by decide)

theorem renderRun_no_ws {s e : Nat} : ∀ c ∈ renderRun s e, c.isWhitespace = false := by
  intro c hc
  rcases renderRun_mem c hc with hd | rfl
  · exact (isDigit_facts hd).2.2.2
  · decide

theorem natToChars_no_dash {n : Nat} : ('-' : Char) ∉ natToChars n := by
  intro hc
  exact (isDigit_facts (natToChars_isDigit _ hc)).2.1 rfl

theorem parseNat_trim_natToChars (n : Nat) :
    parseNat (trimChars (natToChars n)) = some n := by
  rw [trimChars_eq_self (fun c hc => (isDigit_facts (natToChars_isDigit c hc)).2.2.2)]
  exact parseNat_natToChars n

theorem parsePart_renderRun {s e max_page : Nat} (h1 : 1 ≤ s) (h2 : s ≤ e)
    (h3 : e ≤ max_page) :
    parsePart (renderRun s e) max_page = .ok (List.range' s (e - s + 1)) := by
  have hws : ∀ c ∈ renderRun s e, c.isWhitespace = false := renderRun_no_ws
  by_cases hse : s = e
  · subst hse
    have hrr : renderRun s s = natToChars s := by simp [renderRun]
    rw [hrr] at hws
    simp only [parsePart]
    rw [hrr, trimChars_eq_self hws, splitOnce_eq_none natToChars_no_dash]
    dsimp only
    rw [parseNat_natToChars]
    dsimp only
    have hz : ¬s = 0 := by omega
    have hmx : ¬s > max_page := by omega
    rw [if_neg hz, if_neg hmx, Nat.sub_self, List.range'_one]
  · have hrr : renderRun s e = natToChars s ++ '-' :: natToChars e := by
      simp [renderRun, hse]
    rw [hrr] at hws
    simp only [parsePart]
    rw [hrr, trimChars_eq_self hws, splitOnce_append _ natToChars_no_dash]
    dsimp only
    rw [parseNat_trim_natToChars]
    dsimp only
    rw [parseNat_trim_natToChars]
    dsimp only
    have hz : ¬(s = 0 ∨ e = 0) := by omega
    have hgt : ¬s > e := by omega
    have hmx : ¬e > max_page := by omega
    rw [if_neg hz, if_neg hgt, if_neg hmx]

theorem formatLoop_acc :
    ∀ (rest : List Nat) (parts : List (List Char)) (s e : Nat),
      formatLoop parts s e rest = parts ++ formatLoop [] s e rest := by
  intro rest
  induction rest with
  | nil =>
    intro parts s e
    simp [formatLoop, push_range_eq]
  | cons page rest ih =>
    intro parts s e
    by_cases h : page = e + 1
    · simp only [formatLoop]
      rw [if_pos h, if_pos h]
      exact ih parts s page
    · simp only [formatLoop]
      rw [if_neg h, if_neg h]
      rw [ih (push_range parts s e) page page, ih (push_range [] s e) page page]
      simp [push_range_eq]

theorem formatLoop_mem :
    ∀ (rest : List Nat) (s e : Nat), ∀ p ∈ formatLoop [] s e rest,
      ∃ a b, p = renderRun a b := by
  intro rest
  induction rest with
  | nil =>
    intro s e p hp
    simp only [formatLoop, push_range_eq, List.nil_append, List.mem_singleton] at hp
    exact ⟨s, e, hp⟩
  | cons page rest ih =>
    intro s e p hp
    by_cases h : page = e + 1
    · simp only [formatLoop] at hp
      rw [if_pos h] at hp
      exact ih s page p hp
    · simp only [formatLoop] at hp
      rw [if_neg h, formatLoop_acc, push_range_eq, List.nil_append] at hp
      rcases List.mem_append.mp hp with hp | hp
      · exact ⟨s, e, List.mem_singleton.mp hp⟩
      · exact ih page page p hp

theorem formatLoop_ne_nil :
    ∀ (rest : List Nat) (s e : Nat), formatLoop [] s e rest ≠ [] := by
  intro rest
  induction rest with
  | nil => intro s e; simp [formatLoop, push_range_eq]
  | cons page rest ih =>
    intro s e
    by_cases h : page = e + 1
    · simp only [formatLoop]
      rw [if_pos h]
      exact ih s page
    · simp only [formatLoop]
      rw [if_neg h, formatLoop_acc, push_range_eq, List.nil_append]
      simp

theorem splitOnChar_joinComma :
    ∀ (parts : List (List Char)), parts ≠ [] → (∀ p ∈ parts, (',' : Char) ∉ p) →
      splitOnChar ',' (joinComma parts) = parts
  | [], h, _ => absurd rfl h
  | [p], _, hp => by
    simp only [joinComma]
    exact splitOnChar_of_not_mem (hp p (List.mem_singleton.mpr rfl))
  | p :: q :: ps, _, hp => by
    simp only [joinComma]
    rw [splitOnChar_append _ (hp p (List.mem_cons_self _ _))]
    rw [splitOnChar_joinComma (q :: ps) (by simp)
      (fun r hr => hp r (List.mem_cons_of_mem _ hr))]

theorem parseLoop_formatLoop {max_page : Nat} :
    ∀ (rest : List Nat) (s e : Nat) (acc : List Nat),
      1 ≤ s → s ≤ e → e ≤ max_page →
      List.Chain' (· < ·) (e :: rest) → (∀ x ∈ rest, x ≤ max_page) →
      parseLoop max_page (formatLoop [] s e rest) acc =
        .ok ((acc ++ List.range' s (e - s + 1)) ++ rest) := by
  intro rest
  induction rest with
  | nil =>
    intro s e acc h1 h2 h3 _ _
    simp only [formatLoop, push_range_eq, List.nil_append]
    simp only [parseLoop]
    rw [parsePart_renderRun h1 h2 h3]
    simp [parseLoop]
  | cons page rest ih =>
    intro s e acc h1 h2 h3 hchain hbnd
    have hlt : e < page := (List.chain'_cons.mp hchain).1
    have hpm : page ≤ max_page := hbnd page (List.mem_cons_self _ _)
    have hchain' : List.Chain' (· < ·) (page :: rest) := (List.chain'_cons.mp hchain).2
    by_cases h : page = e + 1
    · simp only [formatLoop]
      rw [if_pos h]
      rw [ih s page acc h1 (by omega) (by omega) hchain'
        (fun x hx => hbnd x (List.mem_cons_of_mem _ hx))]
      have hrange : List.range' s (page - s + 1) = List.range' s (e - s + 1) ++ [page] := by
        have hidx : page - s + 1 = (e - s + 1) + 1 := by omega
        rw [hidx, List.range'_concat]
        have harith : s + 1 * (e - s + 1) = page := by omega
        rw [harith]
      rw [hrange]
      simp [List.append_assoc]
    · simp only [formatLoop]
      rw [if_neg h, formatLoop_acc, push_range_eq, List.nil_append]
      have hcons : ([renderRun s e] ++ formatLoop [] page page rest) =
          renderRun s e :: formatLoop [] page page rest := rfl
      rw [hcons]
      simp only [parseLoop]
      rw [parsePart_renderRun h1 h2 h3]
      dsimp only
      rw [ih page page (acc ++ List.range' s (e - s + 1)) (by omega) (le_refl _) hpm
        hchain' (fun x hx => hbnd x (List.mem_cons_of_mem _ hx))]
      rw [Nat.sub_self, List.range'_one]
      simp [List.append_assoc]

theorem parse_format_strict {l : List Nat} {max_page : Nat} (hne : l ≠ [])
    (hs : l.Sorted (· < ·)) (hb : ∀ x ∈ l, 1 ≤ x ∧ x ≤ max_page) :
    parse_page_range (format_page_list l) max_page = .ok l := by
  rcases l with _ | ⟨p, rest⟩
  · exact absurd rfl hne
  · have hp1 : 1 ≤ p := (hb p (List.mem_cons_self _ _)).1
    have hpm : p ≤ max_page := (hb p (List.mem_cons_self _ _)).2
    have hchain : List.Chain' (· < ·) (p :: rest) := List.chain'_iff_pairwise.mpr hs
    have hloop := parseLoop_formatLoop rest p p [] hp1 (le_refl _) hpm hchain
      (fun x hx => (hb x (List.mem_cons_of_mem _ hx)).2)
    simp only [format_page_list, parse_page_range]
    rw [splitOnChar_joinComma _ (formatLoop_ne_nil rest p p) ?comma]
    case comma =>
      intro q hq
      rcases formatLoop_mem rest p p q hq with ⟨a, b, rfl⟩
      exact renderRun_no_comma
    rw [hloop, Nat.sub_self, List.range'_one]
    have hl : (([] : List Nat) ++ [p]) ++ rest = p :: rest := by simp
    rw [hl]
    dsimp only
    have hsorted_le : (p :: rest).Sorted (· ≤ ·) := hs.imp (fun hab => Nat.le_of_lt hab)
    rw [hsorted_le.insertionSort_eq, dedupAdj_eq_self hs]

theorem parse_ok_ne_nil {input : List Char} {max_page : Nat} {l : List Nat}
    (h : parse_page_range input max_page = .ok l) : l ≠ [] := by
  simp only [parse_page_range] at h
  split at h
  · exact Except.noConfusion h
  · rename_i pages hloop
    injection h with h'
    subst h'
    rcases hsplit : splitOnChar ',' input with _ | ⟨p0, ps⟩
    · exact absurd hsplit splitOnChar_ne_nil
    · rw [hsplit] at hloop
      simp only [parseLoop] at hloop
      rcases hp : parsePart p0 max_page with e | l0 <;> rw [hp] at hloop
      · exact Except.noConfusion hloop
      · have hl0 : l0 ≠ [] := parsePart_ok_ne_nil hp
        rcases l0 with _ | ⟨x, l0'⟩
        · exact absurd rfl hl0
        · dsimp only at hloop
          rw [parseLoop_shift] at hloop
          rcases hrest : parseLoop max_page ps [] with e | r <;> rw [hrest] at hloop
          · exact Except.noConfusion hloop
          · simp only [Except.map] at hloop
            injection hloop with h2
            have hxp : x ∈ pages := by
              rw [← h2]; simp
            apply List.ne_nil_of_mem
            apply mem_dedupAdj.mpr
            exact (List.perm_insertionSort _ _).mem_iff.mpr hxp

/-! ## Lemmas about parse failure (claim C4) -/

/-- The failure conditions claim C4 enumerates, stated for one
comma-separated token: a token (or range endpoint) that is not an integer,
a page or endpoint equal to 0, a reversed range, or a resolved page above
`max_page` (for a range `a-b` with `a ≤ b` the largest resolved page is
`b`; when `b < a` the reversed-range condition already applies). -/
def tokenBad (tok : List Char) (max_page : Nat) : Prop :=
  match splitOnce '-' (trimChars tok) with
  | some (s, e) =>
      parseNat (trimChars s) = none ∨ parseNat (trimChars e) = none ∨
      parseNat (trimChars s) = some 0 ∨ parseNat (trimChars e) = some 0 ∨
      (∃ a b, parseNat (trimChars s) = some a ∧ parseNat (trimChars e) = some b ∧ b < a) ∨
      (∃ b, parseNat (trimChars e) = some b ∧ max_page < b)
  | none =>
      parseNat (trimChars tok) = none ∨ parseNat (trimChars tok) = some 0 ∨
      (∃ a, parseNat (trimChars tok) = some a ∧ max_page < a)

theorem parsePart_error_iff {tok : List Char} {max_page : Nat} :
    (∃ err, parsePart tok max_page = .error err) ↔ tokenBad tok max_page := by
  rcases hsp : splitOnce '-' (trimChars tok) with _ | ⟨s, e⟩ <;>
    simp only [parsePart, tokenBad, hsp]
  · rcases hp : parseNat (trimChars tok) with _ | page <;> simp only [hp]
    · simp
    · by_cases hz : page = 0
      · subst hz
        simp
      · rw [if_neg hz]
        by_cases hmx : page > max_page
        · rw [if_pos hmx]
          simp [hz, hmx]
        · rw [if_neg hmx]
          constructor
          · rintro ⟨err, herr⟩
            exact Except.noConfusion herr
          · rintro (h | h | ⟨a, ha, hamax⟩)
            · exact Option.noConfusion h
            · exact absurd (Option.some.inj h) hz
            · have hpa := Option.some.inj ha
              subst hpa
              exact absurd hamax (by omega)
  · rcases hs : parseNat (trimChars s) with _ | a <;> simp only [hs]
    · simp
    · rcases he : parseNat (trimChars e) with _ | b <;> simp only [he]
      · simp
      · by_cases hz : a = 0 ∨ b = 0
        · rw [if_pos hz]
          rcases hz with hz | hz <;> subst hz <;> simp
        · rw [if_neg hz]
          by_cases hgt : a > b
          · rw [if_pos hgt]
            constructor
            · intro _
              refine Or.inr (Or.inr (Or.inr (Or.inr (Or.inl ⟨a, b, rfl, rfl, hgt⟩))))
            · intro _
              exact ⟨_, rfl⟩
          · rw [if_neg hgt]
            by_cases hmx : b > max_page
            · rw [if_pos hmx]
              constructor
              · intro _
                exact Or.inr (Or.inr (Or.inr (Or.inr (Or.inr ⟨b, rfl, hmx⟩))))
              · intro _
                exact ⟨_, rfl⟩
            · rw [if_neg hmx]
              constructor
              · rintro ⟨err, herr⟩
                exact Except.noConfusion herr
              · rintro (h | h | h | h | ⟨x, y, hx, hy, hxy⟩ | ⟨y, hy, hymax⟩)
                · exact Option.noConfusion h
                · exact Option.noConfusion h
                · exact absurd (Option.some.inj h) (by omega)
                · exact absurd (Option.some.inj h) (by omega)
                · have h1 := Option.some.inj hx
                  subst h1
                  have h2 := Option.some.inj hy
                  subst h2
                  exact absurd hxy (by omega)
                · have h2 := Option.some.inj hy
                  subst h2
                  exact absurd hymax (by omega)

theorem parsePart_error_invalidArgs {tok : List Char} {max_page : Nat} {err : Error}
    (h : parsePart tok max_page = .error err) : ∃ msg, err = .InvalidArgs msg := by
  simp only [parsePart] at h
  split at h
  · split at h
    · injection h with h'; exact ⟨_, h'.symm⟩
    · split at h
      · injection h with h'; exact ⟨_, h'.symm⟩
      · split at h
        · injection h with h'; exact ⟨_, h'.symm⟩
        · split at h
          · injection h with h'; exact ⟨_, h'.symm⟩
          · split at h
            · injection h with h'; exact ⟨_, h'.symm⟩
            · exact Except.noConfusion h
  · split at h
    · injection h with h'; exact ⟨_, h'.symm⟩
    · split at h
      · injection h with h'; exact ⟨_, h'.symm⟩
      · split at h
        · injection h with h'; exact ⟨_, h'.symm⟩
        · exact Except.noConfusion h

theorem parseLoop_error_iff (max_page : Nat) :
    ∀ (ps : List (List Char)) (acc : List Nat),
      (∃ err, parseLoop max_page ps acc = .error err) ↔
        ∃ p ∈ ps, ∃ err, parsePart p max_page = .error err := by
  intro ps
  induction ps with
  | nil => intro acc; simp [parseLoop]
  | cons p ps ih =>
    intro acc
    simp only [parseLoop]
    rcases hp : parsePart p max_page with err | l <;> dsimp only
    · constructor
      · intro _
        exact ⟨p, List.mem_cons_self _ _, err, hp⟩
      · intro _
        exact ⟨err, rfl⟩
    · rw [ih (acc ++ l)]
      constructor
      · rintro ⟨q, hq, e', hqe⟩
        exact ⟨q, List.mem_cons_of_mem _ hq, e', hqe⟩
      · rintro ⟨q, hq, e', hqe⟩
        rcases List.mem_cons.mp hq with rfl | hq'
        · rw [hp] at hqe
          exact Except.noConfusion hqe
        · exact ⟨q, hq', e', hqe⟩

theorem parseLoop_error_invalidArgs (max_page : Nat) :
    ∀ (ps : List (List Char)) (acc : List Nat) (err : Error),
      parseLoop max_page ps acc = .error err → ∃ msg, err = .InvalidArgs msg := by
  intro ps
  induction ps with
  | nil =>
    intro acc err h
    exact Except.noConfusion h
  | cons p ps ih =>
    intro acc err h
    simp only [parseLoop] at h
    rcases hp : parsePart p max_page with e' | l <;> rw [hp] at h
    · injection h with h'
      subst h'
      exact parsePart_error_invalidArgs hp
    · exact ih (acc ++ l) err h

theorem parse_page_range_error_iff (input : List Char) (max_page : Nat) :
    (∃ msg, parse_page_range input max_page = .error (.InvalidArgs msg)) ↔
      ∃ tok ∈ splitOnChar ',' input, tokenBad tok max_page := by
  simp only [parse_page_range]
  rcases hloop : parseLoop max_page (splitOnChar ',' input) [] with err | pages
  · dsimp only
    constructor
    · intro _
      rcases (parseLoop_error_iff max_page _ _).mp ⟨err, hloop⟩ with ⟨tok, htok, herr⟩
      exact ⟨tok, htok, parsePart_error_iff.mp herr⟩
    · intro _
      rcases parseLoop_error_invalidArgs max_page _ _ _ hloop with ⟨msg, rfl⟩
      exact ⟨msg, rfl⟩
  · dsimp only
    constructor
    · rintro ⟨msg, hmsg⟩
      exact Except.noConfusion hmsg
    · rintro ⟨tok, htok, hbad⟩
      rcases parsePart_error_iff.mpr hbad with ⟨err, herr⟩
      rcases (parseLoop_error_iff max_page (splitOnChar ',' input) []).mpr
        ⟨tok, htok, err, herr⟩ with ⟨err', herr'⟩
      rw [hloop] at herr'
      exact Except.noConfusion herr'

/-! ## Claim C3 -/

/-- **C3.** Whenever `parse_page_range` succeeds, the returned list is
sorted ascending, duplicate-free, and every value lies in `[1, max_page]`;
and overlapping tokens collapse rather than erroring:
`parse("1-5,3-7", 10) = [1,2,3,4,5,6,7]`. -/
theorem C3_parse_output_sorted_bounded :
    (∀ (input : List Char) (max_page : Nat) (l : List Nat),
      parse_page_range input max_page = .ok l →
      l.Sorted (· < ·) ∧ l.Nodup ∧ (∀ x ∈ l, 1 ≤ x ∧ x ≤ max_page)) ∧
    parse_page_range ['1', '-', '5', ',', '3', '-', '7'] 10 = .ok [1, 2, 3, 4, 5, 6, 7] := by
  refine ⟨?_, by rfl⟩
  intro input max_page l h
  obtain ⟨hs, hb⟩ := parse_page_range_ok_props h
  exact ⟨hs, hs.imp (fun hlt => Nat.ne_of_lt hlt), hb⟩

/-- Witness for C3 on the concrete input `"2,10"` against `max_page = 10`. -/
theorem C3_parse_output_sorted_bounded_witness :
    parse_page_range ['2', ',', '1', '0'] 10 = .ok [2, 10] ∧
    ([2, 10] : List Nat).Sorted (· < ·) :=
  ⟨by rfl, (C3_parse_output_sorted_bounded.1 ['2', ',', '1', '0'] 10 [2, 10] (by rfl)).1⟩

/-! ## Claim C4 -/

/-- **C4 counterexample.** The claim states that the empty input string
yields a zero-length list (success).  It does not: Rust's
`"".split(',')` yields the single token `""`, which is not an integer, so
`parse_page_range "" 10` returns an `InvalidArgs` error, not `Ok([])`. -/
theorem C4_empty_input_not_ok :
    parse_page_range [] 10 ≠ .ok ([] : List Nat) ∧
    parse_page_range [] 10 = .error (.InvalidArgs "invalid page number: ") :=
  ⟨by decide, by rfl⟩

/-- **C4 (amended).** `parse_page_range input max_page` returns an
`InvalidArgs` error if and only if some comma-separated token is bad —
not an integer, a page or range endpoint equal to 0, a reversed range, or
a resolved page above `max_page` (`tokenBad`).  The empty input consists
of the single token `""`, which is not an integer, so empty input fails
with `InvalidArgs` (it does not yield an empty list); `"1-11"`, `"0"`
and `"5-2"` against `max_page = 10` all fail. -/
theorem C4_invalidargs_iff_token_bad :
    (∀ (input : List Char) (max_page : Nat),
      (∃ msg, parse_page_range input max_page = .error (.InvalidArgs msg)) ↔
        ∃ tok ∈ splitOnChar ',' input, tokenBad tok max_page) ∧
    parse_page_range [] 10 = .error (.InvalidArgs "invalid page number: ") ∧
    parse_page_range ['1', '-', '1', '1'] 10 =
      .error (.InvalidArgs "page 11 exceeds page count 10") ∧
    parse_page_range ['0'] 10 = .error (.InvalidArgs "page numbers are 1-based") ∧
    parse_page_range ['5', '-', '2'] 10 = .error (.InvalidArgs "invalid range: 5 > 2") :=
  ⟨parse_page_range_error_iff, by rfl, by rfl, by rfl, by rfl⟩

/-! ## Claim C2 -/

/-- **C2.** Compression round-trips through parsing: for every page list
`L` obtained by a successful parse against `max_page` (equivalently, every
sorted, duplicate-free, in-bounds, nonempty list — which is exactly what
C3 shows parses produce), `parse_page_range (format_page_list L) max_page`
succeeds and returns `L` again. -/
theorem C2_compress_parse_roundtrip :
    ∀ (input : List Char) (max_page : Nat) (l : List Nat),
      parse_page_range input max_page = .ok l →
      parse_page_range (format_page_list l) max_page = .ok l := by
  intro input max_page l h
  obtain ⟨hs, hb⟩ := parse_page_range_ok_props h
  exact parse_format_strict (parse_ok_ne_nil h) hs hb

/-- Witness for C2 on the concrete input `"1-3,5"` against `max_page = 10`:
its parse is `[1,2,3,5]`, and re-parsing the compressed rendering
(`"1-3,5"`) yields `[1,2,3,5]` again. -/
theorem C2_compress_parse_roundtrip_witness :
    parse_page_range ['1', '-', '3', ',', '5'] 10 = .ok [1, 2, 3, 5] ∧
    parse_page_range (format_page_list [1, 2, 3, 5]) 10 = .ok [1, 2, 3, 5] :=
  ⟨by rfl, C2_compress_parse_roundtrip ['1', '-', '3', ',', '5'] 10 [1, 2, 3, 5] (by rfl)⟩

/-! ## Lemmas about `collect_worker_results` (claim C5) -/

/-- What one child contributes to the aggregated rendered total: the
`pages_rendered` of its parsed output, or nothing when unparseable. -/
def childRendered (c : ChildOutcome) : Nat :=
  match workerOutputOfStdout c.stdout with
  | some r => r.pages_rendered
  | none => 0

/-- What the child at spawn index `i` contributes to the aggregated error
list: one exit error when its status is non-success, then its parsed
per-page errors (nothing when unparseable). -/
def childErrors (i : Nat) (c : ChildOutcome) : List String :=
  (if c.success then [] else [workerExitMsg i c]) ++
    (match workerOutputOfStdout c.stdout with
     | some r => r.errors
     | none => [])

/-- Concatenation, in spawn order starting at index `i`, of every child's
error contribution. -/
def errorsFrom : Nat → List ChildOutcome → List String
  | _, [] => []
  | i, c :: rest => childErrors i c ++ errorsFrom (i + 1) rest

theorem collectLoop_spec :
    ∀ (children : List ChildOutcome) (i total : Nat) (errs : List String),
      collectLoop children i total errs =
        (total + (children.map childRendered).sum, errs ++ errorsFrom i children) := by
  intro children
  induction children with
  | nil => intro i total errs; simp [collectLoop, errorsFrom]
  | cons c rest ih =>
    intro i total errs
    simp only [collectLoop, errorsFrom, childErrors, childRendered]
    rcases hout : workerOutputOfStdout c.stdout with _ | r <;>
      by_cases hsucc : c.success <;>
      simp only [hout, hsucc, if_true, if_false, ih] <;>
      simp [List.map_cons, List.sum_cons, childRendered, hout] <;>
      omega

/-! ## Claim C5 -/

/-- **C5 counterexample.** The claim states that for each parseable
worker result both the rendered count and the extracted count are added
to the aggregate totals.  They are not: `WorkerOutput` (`render.rs` lines
217-222) deserializes only `pages_rendered` (plus `errors`), so a worker
reporting `pages_rendered = 2, pages_extracted = 5` contributes `2`, not
`2 + 5`, to the orchestrator's total. -/
theorem C5_extracted_count_not_aggregated :
    (collect_worker_results
      [{ success := true, statusStr := "exit status: 0", stderr := "",
         stdout := some { pages_rendered := 2, pages_extracted := 5, errors := [] } }]).1 = 2 ∧
    (2 : Nat) ≠ 2 + 5 :=
  ⟨by rfl, by decide⟩

/-- **C5 (amended).** The orchestrator folds worker results in fixed
spawn order: each worker with non-success exit status contributes exactly
one orchestrator-level error naming its index and captured error text
while collection of the remaining workers continues; each worker whose
standard output is not parseable contributes nothing to the total; and
each parseable result contributes only its `pages_rendered` count to the
single aggregated total (`pages_extracted` is not deserialized and is
dropped), with its per-page errors appended in order after any exit
error. -/
theorem C5_collect_results_in_spawn_order :
    ∀ children : List ChildOutcome,
      collect_worker_results children =
        ((children.map childRendered).sum, errorsFrom 0 children) := by
  intro children
  simp [collect_worker_results, collectLoop_spec]

/-! ## Lemmas about worker chunks and slices (claim C6) -/

theorem divide_pages_chunk_bounds (total workers : Nat) :
    ∀ r ∈ divide_pages total workers, 1 ≤ r.1 ∧ r.1 ≤ r.2 ∧ r.2 ≤ total := by
  intro r hr
  have hpos : 0 < total ∧ 0 < workers := by
    by_contra hcon
    have : total = 0 ∨ workers = 0 := by omega
    rw [show divide_pages total workers = [] by simp [divide_pages, this]] at hr
    exact List.not_mem_nil r hr
  obtain ⟨ht, hw⟩ := hpos
  have hsz := divide_pages_sizes total workers ht hw
  have hflat := divide_pages_flatten total workers ht hw
  have hbase : 1 ≤ total / min workers total :=
    (Nat.one_le_div_iff (by omega)).mpr (Nat.min_le_right _ _)
  have hsize : 1 ≤ chunkSize r := by
    have hmem : chunkSize r ∈ (divide_pages total workers).map chunkSize :=
      List.mem_map_of_mem _ hr
    rw [hsz] at hmem
    rcases List.mem_map.mp hmem with ⟨j, _, hj⟩
    split_ifs at hj <;> omega
  have hle : r.1 ≤ r.2 := by
    simp only [chunkSize] at hsize
    omega
  have hmemflat : ∀ x ∈ chunkRange r, 1 ≤ x ∧ x ≤ total := by
    intro x hx
    have hxf : x ∈ ((divide_pages total workers).map chunkRange).flatten :=
      List.mem_flatten.mpr ⟨chunkRange r, List.mem_map_of_mem _ hr, hx⟩
    rw [hflat] at hxf
    rcases List.mem_range'.mp hxf with ⟨i, hi, rfl⟩
    omega
  have hs : r.1 ∈ chunkRange r := by
    simp only [chunkRange]
    exact List.mem_range'.mpr ⟨0, by omega, by omega⟩
  have he : r.2 ∈ chunkRange r := by
    simp only [chunkRange]
    exact List.mem_range'.mpr ⟨r.2 - r.1, by omega, by omega⟩
  exact ⟨(hmemflat _ hs).1, hle, (hmemflat _ he).2⟩

theorem workerSlice_ne_nil {l : List Nat} {s e : Nat} (h1 : 1 ≤ s) (h2 : s ≤ e)
    (h3 : e ≤ l.length) : workerSlice l s e ≠ [] := by
  have hlen : (workerSlice l s e).length = min (e - s + 1) (l.length - (s - 1)) := by
    simp [workerSlice, List.length_take, List.length_drop]
  intro hnil
  rw [hnil] at hlen
  simp only [List.length_nil] at hlen
  omega

theorem workerSlice_sorted {l : List Nat} {s e : Nat} (h : l.Sorted (· < ·)) :
    (workerSlice l s e).Sorted (· < ·) :=
  List.Pairwise.sublist ((List.take_sublist _ _).trans (List.drop_sublist _ _)) h

theorem workerSlice_mem {l : List Nat} {s e : Nat} :
    ∀ x ∈ workerSlice l s e, x ∈ l := by
  intro x hx
  exact List.Sublist.mem hx ((List.take_sublist _ _).trans (List.drop_sublist _ _))

/-! ## Claim C6 -/

/-- **C6 counterexample.** The claim states that the orchestrator passes
the extract-images flag and the encoder choice to each worker.  It does
not: the argument list built by `spawn_worker` (`render.rs` lines
142-173) contains neither `--extract-images` nor `--encoder` (and
`main.rs`'s hidden `render-worker` subcommand has no encoder option at
all), so spawned workers always run with extraction off and the default
encoder. -/
theorem C6_extract_and_encoder_not_passed :
    "--extract-images" ∉ spawn_worker_args "doc.pdf" "out" "1-3" 2560 100 BoxType.Crop ∧
    "--encoder" ∉ spawn_worker_args "doc.pdf" "out" "1-3" 2560 100 BoxType.Crop := by
  constructor <;> decide

/-- **C6 (amended).** When effective workers > 1, the orchestrator spawns
one worker process per chunk (one argument vector per chunk of
`divide_pages`), passing that chunk's compressed range string together
with the target width, the quality, and the box type — but not the
extract-images flag and not an encoder choice; and for a sorted in-bounds
page list the compressed range string passed to each worker parses back
to exactly that worker's chunk of the page list. -/
theorem C6_worker_args_per_chunk :
    ∀ (pdf_path output_dir : String) (page_list : List Nat)
      (effective_workers target_width quality : Nat) (box_type : BoxType) (max_page : Nat),
      (run_multi_process_args pdf_path output_dir page_list effective_workers
          target_width quality box_type).length =
        (divide_pages page_list.length effective_workers).length ∧
      run_multi_process_args pdf_path output_dir page_list effective_workers
          target_width quality box_type =
        (divide_pages page_list.length effective_workers).map
          (fun r =>
            ["render-worker", pdf_path, "-o", output_dir,
             "--pages", String.mk (format_page_list (workerSlice page_list r.1 r.2)),
             "--target-width", natToStr target_width,
             "--quality", natToStr quality,
             "--box", boxStr box_type]) ∧
      (page_list.Sorted (· < ·) → (∀ x ∈ page_list, 1 ≤ x ∧ x ≤ max_page) →
        ∀ r ∈ divide_pages page_list.length effective_workers,
          parse_page_range (format_page_list (workerSlice page_list r.1 r.2)) max_page =
            .ok (workerSlice page_list r.1 r.2)) := by
  intro pdf_path output_dir page_list effective_workers target_width quality box_type max_page
  refine ⟨by simp [run_multi_process_args], by rfl, ?_⟩
  intro hsorted hbnd r hr
  obtain ⟨h1, h2, h3⟩ := divide_pages_chunk_bounds _ _ r hr
  exact parse_format_strict (workerSlice_ne_nil h1 h2 h3) (workerSlice_sorted hsorted)
    (fun x hx => hbnd x (workerSlice_mem x hx))

/-- Witness for C6 at the 4-page list `[1,2,3,4]` split across 2 workers
against `max_page = 4`: the first chunk `(1,2)` is compressed and parses
back to `[1,2]`. -/
theorem C6_worker_args_per_chunk_witness :
    ([1, 2, 3, 4] : List Nat).Sorted (· < ·) ∧
    (1, 2) ∈ divide_pages 4 2 ∧
    parse_page_range (format_page_list (workerSlice [1, 2, 3, 4] 1 2)) 4 =
      .ok (workerSlice [1, 2, 3, 4] 1 2) := by
  refine ⟨by decide, by decide, ?_⟩
  exact (C6_worker_args_per_chunk "a.pdf" "out" [1, 2, 3, 4] 2 2560 100 BoxType.Crop 4).2.2
    (by decide) (by decide) (1, 2) (by decide)

/-! ## Lemmas about the worker render engine (claims C7-C9) -/

theorem is_jpeg_encoded_iff {img : PdfImageObject} :
    is_jpeg_encoded img = true ↔ img.filters = ["DCTDecode"] := by
  unfold is_jpeg_encoded
  by_cases hlen : img.filters.length ≠ 1
  · rw [if_pos hlen]
    constructor
    · intro h
      exact absurd h (by simp)
    · intro h
      rw [h] at hlen
      simp at hlen
  · rw [if_neg hlen]
    obtain ⟨f, hf⟩ := List.length_eq_one.mp (not_ne_iff.mp hlen)
    rw [hf]
    simp only [List.getElem?_cons_zero]
    constructor
    · intro h
      have : f = "DCTDecode" := by
        simpa using h
      rw [this]
    · intro h
      have : f = "DCTDecode" := by
        injection h with h1 _
      simp [this]

theorem try_extract_jpeg_isSome_iff (env : Env) (page : PdfPage) (n : Nat) :
    (try_extract_jpeg env page n).isSome = true ↔
      ∃ obj img, page.objects = [obj] ∧ obj.asImage = some img ∧
        img.filters = ["DCTDecode"] := by
  unfold try_extract_jpeg
  by_cases hlen : page.objects.length ≠ 1
  · rw [if_pos hlen]
    simp only [Option.isSome_none, Bool.false_eq_true, false_iff]
    rintro ⟨obj, img, hobj, _⟩
    rw [hobj] at hlen
    simp at hlen
  · rw [if_neg hlen]
    obtain ⟨obj, hobj⟩ := List.length_eq_one.mp (not_ne_iff.mp hlen)
    rw [hobj]
    simp only [List.getElem?_cons_zero]
    rcases himg : obj.asImage with _ | img
    · simp only [Option.isSome_none, Bool.false_eq_true, false_iff]
      rintro ⟨obj', img', hobj', himg', _⟩
      have hoo : obj' = obj := (List.cons.inj hobj').1.symm
      rw [hoo, himg] at himg'
      exact Option.noConfusion himg'
    · dsimp only
      by_cases hjpeg : is_jpeg_encoded img = true
      · rw [if_pos hjpeg]
        simp only [Option.isSome_some, true_iff]
        exact ⟨obj, img, rfl, himg, is_jpeg_encoded_iff.mp hjpeg⟩
      · rw [if_neg hjpeg]
        simp only [Option.isSome_none, Bool.false_eq_true, false_iff]
        rintro ⟨obj', img', hobj', himg', hfil⟩
        have hoo : obj' = obj := (List.cons.inj hobj').1.symm
        rw [hoo, himg] at himg'
        have hii : img' = img := (Option.some.inj himg').symm
        rw [hii] at hfil
        exact hjpeg (is_jpeg_encoded_iff.mpr hfil)

theorem try_extract_jpeg_of_jpeg {env : Env} {page : PdfPage} {obj : PdfObject}
    {img : PdfImageObject} {n : Nat} (hobj : page.objects = [obj])
    (himg : obj.asImage = some img) (hfil : img.filters = ["DCTDecode"]) :
    try_extract_jpeg env page n = some (write_raw_jpeg env img n) := by
  unfold try_extract_jpeg
  rw [if_neg (by rw [hobj]; simp), hobj]
  simp only [List.getElem?_cons_zero]
  rw [himg]
  dsimp only
  rw [if_pos (is_jpeg_encoded_iff.mpr hfil)]

/-! ## Claim C7 -/

/-- A 10-page document whose pages carry their global number in the crop
box, so the rendering oracle can distinguish them. -/
def docC7 : PdfDocument :=
  (List.range' 1 10).map
    (fun i => { objects := [], cropBox := ⟨Int.ofNat i, 0, 0, 0⟩, bleedBox := none })

/-- A rendering oracle for which exactly page 3 is corrupted. -/
def envC7 : Env :=
  { render := fun page =>
      if page.cropBox.left = 3 then .error "rendering error: render failed: corrupt page"
      else .ok [1]
    fsWrite := fun _ _ => none }

/-- Default render options: crop box, no extraction. -/
def optsC7 : RenderOptions :=
  { target_width := 2560, quality := 100, box_type := .Crop,
    extract_images := false, encoder := .Image }

/-- **C7.** A failure to fetch or render one page records exactly one
error entry naming that page's global number, leaves the counters and
written files untouched, and processing continues with the remaining
pages (the page loop is a left fold, so later pages are processed from
the resulting state); consequently a single corrupted page among 10
yields `pages_rendered = 9`, exactly one error entry naming that page,
and `check_errors` then fails with a `Render`-class error whose exit code
4 is non-zero. -/
theorem C7_bad_page_never_aborts_batch :
    (∀ (env : Env) (opts : RenderOptions) (st : WorkerState) (p : Nat),
      (boxAdjust opts st p).doc[p - 1]? = none →
      processPage env opts st p =
        { boxAdjust opts st p with
            errors := (boxAdjust opts st p).errors ++
              ["page " ++ natToStr p ++ ": page index out of bounds"] }) ∧
    (∀ (env : Env) (opts : RenderOptions) (st : WorkerState) (p : Nat) (page : PdfPage)
        (e : String),
      opts.extract_images = false →
      (boxAdjust opts st p).doc[p - 1]? = some page →
      env.render page = .error e →
      processPage env opts st p =
        { boxAdjust opts st p with
            errors := (boxAdjust opts st p).errors ++
              ["page " ++ natToStr p ++ ": " ++ e] }) ∧
    (∀ (env : Env) (opts : RenderOptions) (st : WorkerState) (p : Nat) (rest : List Nat),
      (p :: rest).foldl (processPage env opts) st =
        rest.foldl (processPage env opts) (processPage env opts st p)) ∧
    ((render_pages envC7 docC7 (List.range' 1 10) optsC7).pages_rendered = 9 ∧
      (render_pages envC7 docC7 (List.range' 1 10) optsC7).errors =
        ["page 3: rendering error: render failed: corrupt page"] ∧
      check_errors (render_pages envC7 docC7 (List.range' 1 10) optsC7).errors =
        .error (.Render "1 errors during rendering") ∧
      Error.exit_code (.Render "1 errors during rendering") = 4) := by
  refine ⟨?_, ?_, ?_, by rfl, by rfl, by rfl, by rfl⟩
  · intro env opts st p hnone
    simp only [processPage]
    rw [hnone]
  · intro env opts st p page e hext hsome hrender
    simp only [processPage]
    rw [hsome]
    dsimp only
    rw [hext]
    simp only [Bool.false_eq_true, if_false, renderStep]
    rw [hrender]
  · intro env opts st p rest
    rfl

/-- Witness for C7: processing nonexistent page 11 of the 10-page
document records exactly the one error naming page 11. -/
theorem C7_bad_page_never_aborts_batch_witness :
    (boxAdjust optsC7
        { doc := docC7, pages_rendered := 0, pages_extracted := 0,
          errors := [], files := [] } 11).doc[11 - 1]? = none ∧
    processPage envC7 optsC7
        { doc := docC7, pages_rendered := 0, pages_extracted := 0,
          errors := [], files := [] } 11 =
      { boxAdjust optsC7
          { doc := docC7, pages_rendered := 0, pages_extracted := 0,
            errors := [], files := [] } 11 with
          errors := (boxAdjust optsC7
              { doc := docC7, pages_rendered := 0, pages_extracted := 0,
                errors := [], files := [] } 11).errors ++
            ["page " ++ natToStr 11 ++ ": page index out of bounds"] } :=
  ⟨by rfl,
    C7_bad_page_never_aborts_batch.1 envC7 optsC7
      { doc := docC7, pages_rendered := 0, pages_extracted := 0,
        errors := [], files := [] } 11 (by rfl)⟩

/-! ## Claim C8 -/

/-- **C8.** With `extract_images` enabled, a fetched page takes the
extraction path instead of rasterization exactly when it has exactly one
drawable object, that object is an image, and its filter chain is exactly
`["DCTDecode"]`; on success the raw encoded bytes are written verbatim to
`page-NNNN.jpg`, `pages_extracted` increments while `pages_rendered` does
not; a write failure on this path records a distinct `extract` error for
the page and the page is never retried as a full render (no file written,
`pages_rendered` unchanged). -/
theorem C8_jpeg_passthrough :
    (∀ (env : Env) (page : PdfPage) (n : Nat),
      (try_extract_jpeg env page n).isSome = true ↔
        ∃ obj img, page.objects = [obj] ∧ obj.asImage = some img ∧
          img.filters = ["DCTDecode"]) ∧
    (∀ (env : Env) (opts : RenderOptions) (st : WorkerState) (p : Nat) (page : PdfPage)
        (obj : PdfObject) (img : PdfImageObject) (data : List Nat),
      opts.extract_images = true →
      (boxAdjust opts st p).doc[p - 1]? = some page →
      page.objects = [obj] → obj.asImage = some img → img.filters = ["DCTDecode"] →
      img.raw_data = .ok data → data ≠ [] →
      env.fsWrite (pageFilename p) data = none →
      processPage env opts st p =
        { boxAdjust opts st p with
            pages_extracted := (boxAdjust opts st p).pages_extracted + 1
            files := (boxAdjust opts st p).files ++ [(pageFilename p, data)] }) ∧
    (∀ (env : Env) (opts : RenderOptions) (st : WorkerState) (p : Nat) (page : PdfPage)
        (obj : PdfObject) (img : PdfImageObject) (data : List Nat) (e : String),
      opts.extract_images = true →
      (boxAdjust opts st p).doc[p - 1]? = some page →
      page.objects = [obj] → obj.asImage = some img → img.filters = ["DCTDecode"] →
      img.raw_data = .ok data → data ≠ [] →
      env.fsWrite (pageFilename p) data = some e →
      processPage env opts st p =
        { boxAdjust opts st p with
            errors := (boxAdjust opts st p).errors ++
              ["page " ++ natToStr p ++ " extract: " ++ e] }) := by
  refine ⟨try_extract_jpeg_isSome_iff, ?_, ?_⟩
  · intro env opts st p page obj img data hext hsome hobj himg hfil hraw hdata hwrite
    simp only [processPage]
    rw [hsome]
    dsimp only
    rw [hext]
    simp only [if_true]
    rw [try_extract_jpeg_of_jpeg hobj himg hfil]
    unfold write_raw_jpeg
    rw [hraw]
    dsimp only
    rw [if_neg hdata, hwrite]
  · intro env opts st p page obj img data e hext hsome hobj himg hfil hraw hdata hwrite
    simp only [processPage]
    rw [hsome]
    dsimp only
    rw [hext]
    simp only [if_true]
    rw [try_extract_jpeg_of_jpeg hobj himg hfil]
    unfold write_raw_jpeg
    rw [hraw]
    dsimp only
    rw [if_neg hdata, hwrite]

/-- A single-image JPEG page together with options and oracles for the C8
witness. -/
def imgC8 : PdfImageObject := { filters := ["DCTDecode"], raw_data := .ok [255, 216, 7] }

/-- The page object wrapping `imgC8`. -/
def pageC8 : PdfPage :=
  { objects := [{ asImage := some imgC8 }], cropBox := ⟨0, 0, 0, 0⟩, bleedBox := none }

/-- Options with extraction enabled. -/
def optsC8 : RenderOptions :=
  { target_width := 2560, quality := 100, box_type := .Crop,
    extract_images := true, encoder := .Image }

/-- An environment whose filesystem writes always succeed. -/
def envC8 : Env := { render := fun _ => .ok [1], fsWrite := fun _ _ => none }

/-- Witness for C8 at the concrete single-JPEG page: the page is
extracted, not rendered, and the file written carries the exact raw
bytes. -/
theorem C8_jpeg_passthrough_witness :
    processPage envC8 optsC8
        { doc := [pageC8], pages_rendered := 0, pages_extracted := 0,
          errors := [], files := [] } 1 =
      { boxAdjust optsC8
          { doc := [pageC8], pages_rendered := 0, pages_extracted := 0,
            errors := [], files := [] } 1 with
          pages_extracted := (boxAdjust optsC8
              { doc := [pageC8], pages_rendered := 0, pages_extracted := 0,
                errors := [], files := [] } 1).pages_extracted + 1
          files := (boxAdjust optsC8
              { doc := [pageC8], pages_rendered := 0, pages_extracted := 0,
                errors := [], files := [] } 1).files ++
            [(pageFilename 1, [255, 216, 7])] } :=
  C8_jpeg_passthrough.2.1 envC8 optsC8
    { doc := [pageC8], pages_rendered := 0, pages_extracted := 0,
      errors := [], files := [] } 1 pageC8 { asImage := some imgC8 } imgC8 [255, 216, 7]
    (by rfl) (by rfl) (by rfl) (by rfl) (by rfl) (by rfl) (by decide) (by rfl)

/-! ## Claim C9 -/

/-- **C9.** `apply_bleed_box doc i` changes at most page `i`: every other
page is untouched; when page `i` has a bleed box `b` its crop box is
overwritten with `b` (everything else about the page unchanged); when it
has none, the document is unchanged — and in that case processing the
page under `box_type = Bleed` behaves exactly as under the default
`Crop`, recording no error. -/
theorem C9_bleed_override_is_per_page :
    (∀ (doc : PdfDocument) (i j : Nat), j ≠ i →
      (apply_bleed_box doc i)[j]? = doc[j]?) ∧
    (∀ (doc : PdfDocument) (i : Nat) (page : PdfPage) (b : Rect),
      doc[i]? = some page → page.bleedBox = some b →
      apply_bleed_box doc i = doc.set i { page with cropBox := b }) ∧
    (∀ (doc : PdfDocument) (i : Nat) (page : PdfPage),
      doc[i]? = some page → page.bleedBox = none →
      apply_bleed_box doc i = doc) ∧
    (∀ (env : Env) (opts : RenderOptions) (st : WorkerState) (p : Nat) (page : PdfPage),
      opts.box_type = BoxType.Bleed →
      st.doc[p - 1]? = some page → page.bleedBox = none →
      processPage env opts st p =
        processPage env { opts with box_type := BoxType.Crop } st p) := by
  have hnone : ∀ (doc : PdfDocument) (i : Nat) (page : PdfPage),
      doc[i]? = some page → page.bleedBox = none → apply_bleed_box doc i = doc := by
    intro doc i page hsome hbleed
    simp only [apply_bleed_box]
    rw [hsome]
    dsimp only
    rw [hbleed]
  refine ⟨?_, ?_, hnone, ?_⟩
  · intro doc i j hne
    simp only [apply_bleed_box]
    rcases hsome : doc[i]? with _ | page
    · rfl
    · dsimp only
      rcases hbleed : page.bleedBox with _ | b
      · rfl
      · exact List.getElem?_set_ne (fun hij => hne hij.symm)
  · intro doc i page b hsome hbleed
    simp only [apply_bleed_box]
    rw [hsome]
    dsimp only
    rw [hbleed]
  · intro env opts st p page hbox hsome hbleed
    have hba : boxAdjust opts st p = st := by
      simp only [boxAdjust]
      rw [if_pos hbox, hnone st.doc (p - 1) page hsome hbleed]
    have hbc : boxAdjust { opts with box_type := BoxType.Crop } st p = st := by
      simp [boxAdjust]
    simp only [processPage, hba, hbc]

/-- Witness for C9: a two-page document where page 0 has a bleed box;
applying the override at index 0 leaves page 1's entry unchanged, and a
bleed-less page processes exactly as under `Crop`. -/
theorem C9_bleed_override_is_per_page_witness :
    (apply_bleed_box
        [{ objects := [], cropBox := ⟨0, 0, 0, 0⟩, bleedBox := some ⟨1, 1, 1, 1⟩ },
         { objects := [], cropBox := ⟨2, 2, 2, 2⟩, bleedBox := none }] 0)[1]? =
      some { objects := [], cropBox := ⟨2, 2, 2, 2⟩, bleedBox := none } ∧
    processPage envC8
        { target_width := 2560, quality := 100, box_type := .Bleed,
          extract_images := false, encoder := .Image }
        { doc := [{ objects := [], cropBox := ⟨0, 0, 0, 0⟩, bleedBox := none }],
          pages_rendered := 0, pages_extracted := 0, errors := [], files := [] } 1 =
      processPage envC8
        { target_width := 2560, quality := 100, box_type := .Crop,
          extract_images := false, encoder := .Image }
        { doc := [{ objects := [], cropBox := ⟨0, 0, 0, 0⟩, bleedBox := none }],
          pages_rendered := 0, pages_extracted := 0, errors := [], files := [] } 1 := by
  constructor
  · rw [C9_bleed_override_is_per_page.1 _ 0 1 (by decide)]
    rfl
  · exact C9_bleed_override_is_per_page.2.2.2 envC8 _ _ 1 _ (by rfl) (by rfl) (by rfl)

/-! ## Claim C10 -/

/-- **C10.** For a document that opens successfully but has zero pages,
`info::run` succeeds with `--all-pages`, reporting `page_count = 0` and
an empty pages array, but fails with `PdfInvalid` ("PDF has no pages")
without `--all-pages`. -/
theorem C10_info_zero_pages_asymmetric :
    ∀ doc : List (Int × Int), doc.length = 0 →
      info_run doc true = .ok { page_count := 0, pages := [] } ∧
      info_run doc false = .error (.PdfInvalid "PDF has no pages") := by
  intro doc hlen
  obtain rfl : doc = [] := List.length_eq_zero.mp hlen
  exact ⟨by rfl, by rfl⟩

/-- Witness for C10 at the empty document. -/
theorem C10_info_zero_pages_asymmetric_witness :
    info_run [] true = .ok { page_count := 0, pages := [] } ∧
    info_run [] false = .error (.PdfInvalid "PDF has no pages") :=
  C10_info_zero_pages_asymmetric [] (by decide)

end PdfTool
